import Mathlib

/-!
Verification development for the collision engine of a 2D combat game.

The Rust source is shallowly embedded: `f32` values are modelled by real
numbers (machine rounding is not modelled), `nalgebra` 2D vectors by pairs
of reals, Rust structs by Lean structures, iterator pipelines by `List`
functions, and borrowed references by the values they point to.

Sources embedded here:
 * `src/physics/obb.rs` — oriented bounding boxes and the separating-axis
   collision test (`rotate`, `base_corners`, `corners`, `bounds`,
   `check_half_collision`, `check_collision`, `is_almost_axis_aligned`,
   `normalized_wrt`);
 * `src/util/cartesian.rs` — `product` and `unique_square`;
 * `src/physics/collision.rs` — `transpose`, `check_for_hb_collisions`,
   `check_for_collisions`, `check_for_collision_pairs` and the `Collision`
   record;
 * `src/screens/battle/player.rs` — the `Changes` changeset with its
   `merge`, and the physics step `handle_phys_update` / `reset_for_update`.
-/

namespace Walpurgis

noncomputable section

/-- A 2D vector: the model of `nalgebra::Vector2<f32>`. -/
abbrev V2 : Type := ℝ × ℝ

/-- `BoundingBox` from `src/physics/obb.rs`: position, size (width, height)
and counterclockwise orientation in radians. -/
structure BoundingBox where
  pos : V2
  size : V2
  ori : ℝ

/-- `BoundingBox::rotate`: rotates a point counterclockwise by `ori` radians,
`(cos·x − sin·y, sin·x + cos·y)`. -/
def rotate (point : V2) (ori : ℝ) : V2 :=
  (Real.cos ori * point.1 - Real.sin ori * point.2,
   Real.sin ori * point.1 + Real.cos ori * point.2)

/-- One transformed corner of a box: the source computes
`rot_matrix * base_corners` and then adds `pos` to every column; applying
the rotation matrix to a column is exactly `rotate`. -/
def corner (b : BoundingBox) (c : V2) : V2 :=
  rotate c b.ori + b.pos

/-- `BoundingBox::bounds`, as `((minX, maxX), (minY, maxY))`.
The source takes the four columns of `base_corners`
(`(0,0), (0,h), (w,0), (w,h)`), transforms them with `corners`, and folds
`f32::min` (resp. `f32::max`) over the four coordinates starting from
`+∞` (resp. `−∞`); a fold of `min` from `+∞` over exactly four values is
the four-way minimum, which is written here directly. -/
def bounds (b : BoundingBox) : (ℝ × ℝ) × (ℝ × ℝ) :=
  ((min (min (corner b (0, 0)).1 (corner b (0, b.size.2)).1)
        (min (corner b (b.size.1, 0)).1 (corner b (b.size.1, b.size.2)).1),
    max (max (corner b (0, 0)).1 (corner b (0, b.size.2)).1)
        (max (corner b (b.size.1, 0)).1 (corner b (b.size.1, b.size.2)).1)),
   (min (min (corner b (0, 0)).2 (corner b (0, b.size.2)).2)
        (min (corner b (b.size.1, 0)).2 (corner b (b.size.1, b.size.2)).2),
    max (max (corner b (0, 0)).2 (corner b (0, b.size.2)).2)
        (max (corner b (b.size.1, 0)).2 (corner b (b.size.1, b.size.2)).2)))

/-- `BoundingBox::normalized_wrt`: the position difference is rotated by
`self.ori - basis.ori` (exactly as in the source), the size is kept, and the
orientation becomes the difference of the orientations. -/
def normalized_wrt (self basis : BoundingBox) : BoundingBox where
  pos := rotate (self.pos - basis.pos) (self.ori - basis.ori)
  size := self.size
  ori := self.ori - basis.ori

/-- `BoundingBox::check_half_collision`: normalize `self` with respect to
`basis`, then require, on each axis, that the maximum of the two interval
minima is at most the minimum of the two interval maxima, where the basis
contributes the interval `[0, basis.size]`. -/
def check_half_collision (self basis : BoundingBox) : Prop :=
  max (bounds (normalized_wrt self basis)).1.1 0
      ≤ min (bounds (normalized_wrt self basis)).1.2 basis.size.1 ∧
  max (bounds (normalized_wrt self basis)).2.1 0
      ≤ min (bounds (normalized_wrt self basis)).2.2 basis.size.2

/-- The `ORI_EPSILON` constant of `is_almost_axis_aligned`. -/
def ORI_EPSILON : ℝ := 1e-7

/-- `BoundingBox::is_almost_axis_aligned`: the orientations differ by less
than `ORI_EPSILON`. -/
def is_almost_axis_aligned (lhs rhs : BoundingBox) : Prop :=
  |rhs.ori - lhs.ori| < ORI_EPSILON

/-- `BoundingBox::check_collision`: one half check, and the second half
check unless the boxes are almost axis aligned relative to one another. -/
def check_collision (lhs rhs : BoundingBox) : Prop :=
  check_half_collision lhs rhs ∧
    (is_almost_axis_aligned lhs rhs ∨ check_half_collision rhs lhs)

/-- Concrete boxes used as explicit inputs below. -/
def cexSelf : BoundingBox := ⟨(1, 0), (1, 1), Real.pi⟩

/-- Basis box for the `normalized_wrt` counterexample. -/
def cexBasis : BoundingBox := ⟨(0, 0), (1, 1), 0⟩

/-- A box with a degenerate (zero) size. -/
def zeroBox : BoundingBox := ⟨(0, 0), (0, 0), 0⟩

/-- A second zero-size box, placed away from the origin. -/
def zeroBoxW : BoundingBox := ⟨(3, 5), (0, 0), 0⟩

/-- A box with a negative width, exercising the unconstrained size field. -/
def negBox : BoundingBox := ⟨(0, 0), (-1, 1), 0⟩

/-- A wide box at the origin. -/
def wideBox : BoundingBox := ⟨(0, 0), (5, 1), 0⟩

/-- The unit box at the origin with orientation zero. -/
def unitBox : BoundingBox := ⟨(0, 0), (1, 1), 0⟩

/-- A large axis-aligned box, used to exhibit asymmetry of the epsilon fast
path at nonnegative sizes. -/
def sliverA : BoundingBox := ⟨(0, 0), (1e18, 1e18), 0⟩

/-- A box rotated by `1e-8` radians (inside the `1e-7` fast-path window),
placed just past the tilted reach of `sliverA`. -/
def sliverB : BoundingBox := ⟨(1000000010000000025, 0), (1e18, 1e18), 1e-8⟩

/-- `product` from `src/util/cartesian.rs`: the row-major cartesian product
of two sequences, built with `flat_map` exactly as in the source. -/
def product {α β : Type} (tt0 : List α) (tt1 : List β) : List (α × β) :=
  tt0.flatMap (fun e0 => tt1.map (fun e1 => (e0, e1)))

/-- `unique_square` from `src/util/cartesian.rs`: the source repeatedly
pops the next element `t0` together with a clone of the remaining
iterator, and pairs `t0` with every remaining element, so each unordered
pair of positions is emitted once, in lexicographic position order. -/
def unique_square {α : Type} : List α → List (α × α)
  | [] => []
  | t0 :: rest => rest.map (fun t1 => (t0, t1)) ++ unique_square rest

/-- The reference shape for C5: the pairs `(A[i], A[j])` for all positions
`i < j < |A|`, in lexicographic order of `(i, j)`, each index pair once
(`d` is the out-of-range default, never used). -/
def index_pairs_image {α : Type} (l : List α) (d : α) : List (α × α) :=
  (List.range l.length).flatMap (fun i =>
    (List.range' (i + 1) (l.length - (i + 1))).map (fun j => (l.getD i d, l.getD j d)))

/-- `Changes` from `src/screens/battle/player.rs`: a player changeset with
an accumulated force and the list of contacted platform indices. -/
structure Changes where
  force : V2
  contacted_platforms : List ℕ

/-- `Default for Changes`: zero force and no contacted platforms. -/
def Changes.default : Changes := ⟨(0, 0), []⟩

/-- `Mergeable for Changes`: forces are added and the contacted platform
lists are concatenated (`chain` + `collect`). -/
def Changes.merge (self other : Changes) : Changes :=
  ⟨self.force + other.force,
    self.contacted_platforms ++ other.contacted_platforms⟩

/-- The state of `Player` relevant to the physics step: position, velocity,
acceleration, and the persistent platform tracking lists. -/
structure Player where
  position : V2
  velocity : V2
  acceleration : V2
  platforms_to_ignore : List ℕ
  touched_platforms : List ℕ

/-- `Player::reset_for_update`: zero the per-tick acceleration accumulator. -/
def reset_for_update (p : Player) : Player :=
  { p with acceleration := (0, 0) }

/-- `Collidable::handle_phys_update` for `Player`:
`velocity += acceleration; position += velocity; reset_for_update()`,
performed sequentially. -/
def handle_phys_update (p : Player) : Player :=
  let p1 := { p with velocity := p.velocity + p.acceleration }
  let p2 := { p1 with position := p1.position + p1.velocity }
  reset_for_update p2

/-- A collidable entity as the detection engine sees it: the `Collidable`
trait supplies a hitbox slice (`get_hitboxes`) and a world offset
(`get_offset`). -/
structure Entity where
  hitboxes : List BoundingBox
  offset : V2

/-- `Collision` from `src/physics/collision.rs`: the pair of entity indices,
the pair of entities, and the overlapping hitbox pairs. Borrowed
references of the source are modelled by the referenced values. -/
structure Collision where
  ids : ℕ × ℕ
  objs : Entity × Entity
  overlapping_hitboxes : List (BoundingBox × BoundingBox)

/-- The `From` conversion of `Collision`, assembling a record from
`(((id0, e0), (id1, e1)), hb_collisions)`. -/
def Collision.fromParts
    (x : ((ℕ × Entity) × (ℕ × Entity)) × List (BoundingBox × BoundingBox)) :
    Collision :=
  ⟨(x.1.1.1, x.1.2.1), (x.1.1.2, x.1.2.2), x.2⟩

/-- `transpose` from `src/physics/collision.rs`. -/
def transpose {T0 T1 S0 S1 : Type}
    (x : (T0 × S0) × (T1 × S1)) : (T0 × T1) × (S0 × S1) :=
  ((x.1.1, x.2.1), (x.1.2, x.2.2))

/-- The offset copy `BoundingBox { pos: bb.pos + offset, ..*bb }` built in
`check_for_hb_collisions`. -/
def translate (bb : BoundingBox) (offset : V2) : BoundingBox :=
  { bb with pos := bb.pos + offset }

/-- Boolean form of `check_collision`, as used inside iterator filters;
comparisons of reals are classically decidable. -/
def check_collision_b (a b : BoundingBox) : Bool :=
  @decide (check_collision a b) (Classical.propDecidable _)

/-- `check_for_hb_collisions` from `src/physics/collision.rs`: swap the two
hitbox collections when `offset_second` is set, keep each box of the first
collection next to its offset copy, test every pair with
`check_collision`, and flip surviving pairs back. -/
def check_for_hb_collisions (offset_second : Bool) (offset : V2)
    (hbs : List BoundingBox × List BoundingBox) :
    List (BoundingBox × BoundingBox) :=
  let hb := if offset_second then (hbs.2, hbs.1) else (hbs.1, hbs.2)
  let hb0_mapped_mem := hb.1.map (fun bb => (bb, translate bb offset))
  ((product hb0_mapped_mem hb.2).filter
      (fun x => check_collision_b x.1.2 x.2)).map
    (fun x => if offset_second then (x.2, x.1.1) else (x.1.1, x.2))

/-- The per-pair closure shared verbatim by `check_for_collisions` and
`check_for_collision_pairs`: offset the side with fewer boxes
(`should_offset_second = hb_pair.0.len() > hb_pair.1.len()`), with the
offset difference oriented accordingly. -/
def pair_step
    (x : ((ℕ × Entity) × (ℕ × Entity)) × (List BoundingBox × List BoundingBox)) :
    ((ℕ × Entity) × (ℕ × Entity)) × List (BoundingBox × BoundingBox) :=
  let should_offset_second : Bool := decide (x.2.2.length < x.2.1.length)
  let offset :=
    if should_offset_second then x.1.2.2.offset - x.1.1.2.offset
    else x.1.1.2.offset - x.1.2.2.offset
  (x.1, check_for_hb_collisions should_offset_second offset x.2)

/-- `check_for_collisions`: enumerate unordered entity pairs of one slice
with `unique_square`, run the pair step, drop pairs with no overlapping
hitboxes, and build `Collision` records. -/
def check_for_collisions (entities : List Entity) : List Collision :=
  let entity_with_hitboxes := entities.enum.map (fun ie => (ie, ie.2.hitboxes))
  ((((unique_square entity_with_hitboxes).map transpose).map pair_step).filter
      (fun y => !y.2.isEmpty)).map Collision.fromParts

/-- `check_for_collision_pairs`: the two-collection entry point, identical
to `check_for_collisions` except that candidate pairs come from the full
cartesian `product` of the two slices. -/
def check_for_collision_pairs (set1 set2 : List Entity) : List Collision :=
  let set1_with_hitboxes := set1.enum.map (fun ie => (ie, ie.2.hitboxes))
  let set2_with_hitboxes := set2.enum.map (fun ie => (ie, ie.2.hitboxes))
  ((((product set1_with_hitboxes set2_with_hitboxes).map transpose).map
      pair_step).filter (fun y => !y.2.isEmpty)).map Collision.fromParts

/-- An entity with a single unit hitbox at the origin. -/
def unitEntity : Entity := ⟨[unitBox], (0, 0)⟩

/-- The collision record produced by `check_for_collisions` on two unit
entities. -/
def colU2 : Collision := ⟨(0, 1), (unitEntity, unitEntity), [(unitBox, unitBox)]⟩

/-- The collision record produced by `check_for_collision_pairs` on two
singleton slices of unit entities. -/
def colU1 : Collision := ⟨(0, 0), (unitEntity, unitEntity), [(unitBox, unitBox)]⟩

/-- Concrete changesets used as explicit inputs below. -/
def changesA : Changes := ⟨(0, 0), [0]⟩

/-- A second concrete changeset. -/
def changesB : Changes := ⟨(0, 0), [1]⟩

end

end Walpurgis

namespace Walpurgis

/-- When the two boxes have equal orientations, the half collision check is
an interval overlap test of the translated interval
`[min, max] of {p, size + p}` against `[0, basis.size]` on each axis. -/
theorem check_half_collision_ori_eq (a b : BoundingBox) (h : a.ori = b.ori) :
    check_half_collision a b ↔
      (max (min (a.pos.1 - b.pos.1) (a.size.1 + (a.pos.1 - b.pos.1))) 0
          ≤ min (max (a.pos.1 - b.pos.1) (a.size.1 + (a.pos.1 - b.pos.1))) b.size.1 ∧
       max (min (a.pos.2 - b.pos.2) (a.size.2 + (a.pos.2 - b.pos.2))) 0
          ≤ min (max (a.pos.2 - b.pos.2) (a.size.2 + (a.pos.2 - b.pos.2))) b.size.2) := by
  unfold check_half_collision bounds corner normalized_wrt rotate
  simp only [h, sub_self, Real.cos_zero, Real.sin_zero, one_mul, zero_mul,
    mul_zero, mul_one, sub_zero, zero_add, add_zero, zero_sub,
    Prod.fst_sub, Prod.snd_sub, Prod.fst_add, Prod.snd_add, min_self, max_self]

/-- Interval overlap against `[0, w2]` is symmetric to the reflected overlap
against `[0, w1]`, for nonnegative interval widths. -/
theorem interval_overlap_flip (p w1 w2 : ℝ) (hw1 : 0 ≤ w1) (hw2 : 0 ≤ w2) :
    (max (min p (w1 + p)) 0 ≤ min (max p (w1 + p)) w2) ↔
      (max (min (-p) (w2 + -p)) 0 ≤ min (max (-p) (w2 + -p)) w1) := by
  rw [min_eq_left (show p ≤ w1 + p by linarith),
    max_eq_right (show p ≤ w1 + p by linarith),
    min_eq_left (show -p ≤ w2 + -p by linarith),
    max_eq_right (show -p ≤ w2 + -p by linarith)]
  simp only [max_le_iff, le_min_iff]
  constructor <;> rintro ⟨⟨h1, h2⟩, h3, h4⟩ <;>
    exact ⟨⟨by linarith, by linarith⟩, by linarith, by linarith⟩

/-- For boxes of equal orientation and nonnegative size, the half collision
check is symmetric. -/
theorem check_half_collision_comm_of_ori_eq (a b : BoundingBox)
    (ha1 : 0 ≤ a.size.1) (ha2 : 0 ≤ a.size.2)
    (hb1 : 0 ≤ b.size.1) (hb2 : 0 ≤ b.size.2) (h : a.ori = b.ori) :
    (check_half_collision a b ↔ check_half_collision b a) := by
  rw [check_half_collision_ori_eq a b h, check_half_collision_ori_eq b a h.symm]
  have e1 : b.pos.1 - a.pos.1 = -(a.pos.1 - b.pos.1) := by ring
  have e2 : b.pos.2 - a.pos.2 = -(a.pos.2 - b.pos.2) := by ring
  rw [e1, e2]
  exact and_congr (interval_overlap_flip _ _ _ ha1 hb1)
    (interval_overlap_flip _ _ _ ha2 hb2)

/-- Boxes of equal orientation are almost axis aligned. -/
theorem is_almost_axis_aligned_of_ori_eq (a b : BoundingBox) (h : a.ori = b.ori) :
    is_almost_axis_aligned a b := by
  unfold is_almost_axis_aligned ORI_EPSILON
  rw [h, sub_self, abs_zero]
  norm_num

/-- `check_collision` is symmetric whenever both sizes are componentwise
nonnegative and the orientations are either exactly equal or at least
`ORI_EPSILON` apart. -/
theorem check_collision_comm (a b : BoundingBox)
    (ha1 : 0 ≤ a.size.1) (ha2 : 0 ≤ a.size.2)
    (hb1 : 0 ≤ b.size.1) (hb2 : 0 ≤ b.size.2)
    (hori : a.ori = b.ori ∨ ORI_EPSILON ≤ |b.ori - a.ori|) :
    (check_collision a b ↔ check_collision b a) := by
  rcases hori with heq | hfar
  · have hal1 : is_almost_axis_aligned a b := is_almost_axis_aligned_of_ori_eq a b heq
    have hal2 : is_almost_axis_aligned b a := is_almost_axis_aligned_of_ori_eq b a heq.symm
    unfold check_collision
    simp only [hal1, hal2, true_or, and_true]
    exact check_half_collision_comm_of_ori_eq a b ha1 ha2 hb1 hb2 heq
  · have h1 : ¬ is_almost_axis_aligned a b := not_lt.mpr hfar
    have h2 : ¬ is_almost_axis_aligned b a := by
      unfold is_almost_axis_aligned
      rw [abs_sub_comm]
      exact not_lt.mpr hfar
    unfold check_collision
    simp only [h1, h2, false_or]
    exact and_comm

/-- C1: `check_collision(lhs, rhs)` is true iff `lhs.check_half_collision(rhs)`
holds and, in addition, either the absolute orientation difference
`|rhs.ori - lhs.ori|` is below the epsilon `1e-7` radians, or
`rhs.check_half_collision(lhs)` also holds. -/
theorem check_collision_iff_half_and_aligned_or_half (lhs rhs : BoundingBox) :
    check_collision lhs rhs ↔
      check_half_collision lhs rhs ∧
        (|rhs.ori - lhs.ori| < (1e-7 : ℝ) ∨ check_half_collision rhs lhs) :=
  Iff.rfl

/-- C2 counterexample: for `self` at `(1,0)` with orientation `π` and an
axis-aligned basis at the origin, the normalized position is
`rotate((1,0), π) = (-1,0)`, not `rotate((1,0), -0) = (1,0)` as the claim
(rotation by the negative of the basis orientation) predicts. -/
theorem normalized_wrt_pos_ne_rotate_neg_basis_ori :
    ¬ ((normalized_wrt cexSelf cexBasis).pos
        = rotate (cexSelf.pos - cexBasis.pos) (-cexBasis.ori)) := by
  unfold normalized_wrt rotate cexSelf cexBasis
  simp only [neg_zero, sub_zero, Real.cos_zero, Real.sin_zero, Real.cos_pi,
    Real.sin_pi, Prod.mk_sub_mk, Prod.mk.injEq]
  norm_num

/-- C2 (amended): `normalized_wrt(basis)` keeps the size, sets the
orientation to `self.ori - basis.ori`, and sets the position to the
difference `self.pos - basis.pos` rotated by `self.ori - basis.ori`
(not by `-basis.ori`). -/
theorem normalized_wrt_eq (self basis : BoundingBox) :
    normalized_wrt self basis =
      ⟨rotate (self.pos - basis.pos) (self.ori - basis.ori),
        self.size, self.ori - basis.ori⟩ :=
  rfl

/-- The negative-width box does collide with the wide box: the collapsed
interval `[-1, 0]` still touches `[0, 5]` at `0`. -/
theorem check_collision_negBox_wideBox : check_collision negBox wideBox := by
  refine ⟨?_, Or.inl (is_almost_axis_aligned_of_ori_eq negBox wideBox rfl)⟩
  rw [check_half_collision_ori_eq negBox wideBox rfl]
  unfold negBox wideBox
  norm_num

/-- In the other order the single half check fails: `[0, 5]` cannot meet
the negative extent `[0, -1]`. -/
theorem not_check_collision_wideBox_negBox : ¬ check_collision wideBox negBox := by
  rintro ⟨h1, -⟩
  rw [check_half_collision_ori_eq wideBox negBox rfl] at h1
  unfold negBox wideBox at h1
  norm_num at h1

/-- C3 counterexample: with a negative width on one box and equal
orientations (so the epsilon fast path applies and only one half check
runs), `check_collision` holds in one argument order and fails in the
other. -/
theorem check_collision_not_comm :
    check_collision negBox wideBox ∧ ¬ check_collision wideBox negBox :=
  ⟨check_collision_negBox_wideBox, not_check_collision_wideBox_negBox⟩

/-- Rational bounds on the sine and cosine of the fast-path angle `1e-8`,
from the quartic Taylor remainder bounds. -/
theorem sliver_trig_bounds :
    1 - 6e-17 ≤ Real.cos 1e-8 ∧ Real.cos 1e-8 ≤ 1 - 4.9e-17 ∧
    1e-8 - 2e-25 ≤ Real.sin 1e-8 ∧ Real.sin 1e-8 ≤ 1e-8 := by
  have habs : |(1e-8 : ℝ)| ≤ 1 := by
    rw [abs_of_pos (by norm_num)]
    norm_num
  have hc := Real.cos_bound habs
  have hs := Real.sin_bound habs
  rw [abs_of_pos (show (0 : ℝ) < 1e-8 by norm_num), abs_le] at hc hs
  obtain ⟨hc1, hc2⟩ := hc
  obtain ⟨hs1, hs2⟩ := hs
  have hlt := Real.sin_lt (show (0 : ℝ) < 1e-8 by norm_num)
  refine ⟨by nlinarith, by nlinarith, by nlinarith, le_of_lt hlt⟩

/-- In the tilted frame of `sliverB`, the box `sliverA` projects entirely
below zero on the x axis, so this half check fails. -/
theorem not_check_half_sliverA_sliverB : ¬ check_half_collision sliverA sliverB := by
  obtain ⟨hc1, hc2, hs1, hs2⟩ := sliver_trig_bounds
  rintro ⟨hx, -⟩
  unfold bounds corner normalized_wrt rotate sliverA sliverB at hx
  simp only [zero_sub, Real.cos_neg, Real.sin_neg, Prod.mk_sub_mk, mul_zero,
    mul_one, zero_mul, one_mul, neg_zero, zero_add, add_zero, sub_zero,
    neg_mul, sub_self, Prod.mk_add_mk] at hx
  rcases le_max_iff.mp ((le_min_iff.mp (le_trans (le_max_right _ _) hx)).1) with
    h | h
  · rcases le_max_iff.mp h with h' | h' <;> nlinarith
  · rcases le_max_iff.mp h with h' | h' <;> nlinarith

/-- In the frame of `sliverA`, the tilted box `sliverB` still reaches back
across the boundary, so this half check succeeds. -/
theorem check_half_sliverB_sliverA : check_half_collision sliverB sliverA := by
  obtain ⟨hc1, hc2, hs1, hs2⟩ := sliver_trig_bounds
  refine ⟨?x, ?y⟩
  case x =>
    show max (bounds (normalized_wrt sliverB sliverA)).1.1 0 ≤ _
    unfold bounds corner normalized_wrt rotate sliverA sliverB
    simp only [zero_sub, Real.cos_neg, Real.sin_neg, Prod.mk_sub_mk, mul_zero,
      mul_one, zero_mul, one_mul, neg_zero, zero_add, add_zero, sub_zero,
      neg_mul, sub_self, Prod.mk_add_mk]
    apply max_le
    · apply le_min
      · exact le_trans (le_trans (min_le_left _ _) (min_le_left _ _))
          (le_trans (le_max_left _ _) (le_max_left _ _))
      · refine le_trans (le_trans (min_le_left _ _) (min_le_right _ _)) ?_
        nlinarith
    · apply le_min
      · refine le_trans ?_ (le_trans (le_max_left _ _) (le_max_left _ _))
        nlinarith
      · norm_num
  case y =>
    show max (bounds (normalized_wrt sliverB sliverA)).2.1 0 ≤ _
    unfold bounds corner normalized_wrt rotate sliverA sliverB
    simp only [zero_sub, Real.cos_neg, Real.sin_neg, Prod.mk_sub_mk, mul_zero,
      mul_one, zero_mul, one_mul, neg_zero, zero_add, add_zero, sub_zero,
      neg_mul, sub_self, Prod.mk_add_mk]
    apply max_le
    · apply le_min
      · exact le_trans (le_trans (min_le_left _ _) (min_le_left _ _))
          (le_trans (le_max_left _ _) (le_max_left _ _))
      · refine le_trans (le_trans (min_le_left _ _) (min_le_left _ _)) ?_
        nlinarith
    · apply le_min
      · refine le_trans ?_ (le_trans (le_max_left _ _) (le_max_left _ _))
        nlinarith
      · norm_num

/-- Even with nonnegative sizes, the epsilon fast path is asymmetric in
exact arithmetic: at an orientation difference of `1e-8` radians (inside
the `1e-7` window) only one half check runs, and the two half checks
disagree for `sliverA` and `sliverB`. This shows the restriction of the
amended symmetry statement to exactly equal or well-separated orientations
is necessary, not merely convenient. -/
theorem check_collision_fast_path_asymmetric :
    check_collision sliverB sliverA ∧ ¬ check_collision sliverA sliverB := by
  constructor
  · refine ⟨check_half_sliverB_sliverA, Or.inl ?_⟩
    unfold is_almost_axis_aligned ORI_EPSILON sliverA sliverB
    rw [zero_sub, abs_neg, abs_of_pos] <;> norm_num
  · rintro ⟨h, -⟩
    exact not_check_half_sliverA_sliverB h

/-- C3 (amended): `check_collision(a, b) = check_collision(b, a)` holds for
all boxes with componentwise nonnegative sizes whose orientations are
either exactly equal (the fast path then runs a single half check, which
is symmetric for such boxes) or at least `ORI_EPSILON` apart (the general
path runs both half checks, which is symmetric by commutativity of
conjunction); the unrestricted statement is refuted by the
counterexample. -/
theorem check_collision_comm_of_nonneg_size (a b : BoundingBox)
    (ha1 : 0 ≤ a.size.1) (ha2 : 0 ≤ a.size.2)
    (hb1 : 0 ≤ b.size.1) (hb2 : 0 ≤ b.size.2)
    (hori : a.ori = b.ori ∨ ORI_EPSILON ≤ |b.ori - a.ori|) :
    (check_collision a b ↔ check_collision b a) :=
  check_collision_comm a b ha1 ha2 hb1 hb2 hori

/-- Witness for the amended C3 at the unit box against the wide box. -/
theorem check_collision_comm_of_nonneg_size_witness :
    (0 : ℝ) ≤ unitBox.size.1 ∧ (0 : ℝ) ≤ unitBox.size.2 ∧
      (0 : ℝ) ≤ wideBox.size.1 ∧ (0 : ℝ) ≤ wideBox.size.2 ∧
      unitBox.ori = wideBox.ori ∧
      (check_collision unitBox wideBox ↔ check_collision wideBox unitBox) :=
  ⟨by norm_num [unitBox], by norm_num [unitBox], by norm_num [wideBox],
    by norm_num [wideBox], rfl,
    check_collision_comm_of_nonneg_size unitBox wideBox
      (by norm_num [unitBox]) (by norm_num [unitBox])
      (by norm_num [wideBox]) (by norm_num [wideBox]) (Or.inl rfl)⟩

/-- C7 counterexample: two identical zero-size boxes at the same position
do collide, because every bounds comparison is inclusive. -/
theorem zero_size_self_collision : check_collision zeroBox zeroBox := by
  refine ⟨?_, Or.inl (is_almost_axis_aligned_of_ori_eq zeroBox zeroBox rfl)⟩
  rw [check_half_collision_ori_eq zeroBox zeroBox rfl]
  unfold zeroBox
  norm_num

/-- C7 (amended): a zero-size box always collides with an identical copy of
itself at the same position — the bounds interval collapses to a single
point and the boundary convention is inclusive (`≤`), so the claimed
"never collides" fails precisely on the touching case. -/
theorem check_collision_self_of_zero_size (z : BoundingBox)
    (h : z.size = ((0 : ℝ), (0 : ℝ))) : check_collision z z := by
  have h1 : z.size.1 = 0 := by rw [h]
  have h2 : z.size.2 = 0 := by rw [h]
  refine ⟨?_, Or.inl (is_almost_axis_aligned_of_ori_eq z z rfl)⟩
  rw [check_half_collision_ori_eq z z rfl]
  rw [h1, h2]
  norm_num

/-- Witness for the amended C7 at a concrete zero-size box. -/
theorem check_collision_self_of_zero_size_witness :
    zeroBoxW.size = ((0 : ℝ), (0 : ℝ)) ∧ check_collision zeroBoxW zeroBoxW :=
  ⟨rfl, check_collision_self_of_zero_size zeroBoxW rfl⟩

/-- C6 counterexample: `merge` concatenates the contacted platform lists,
so merging two changesets with distinct platform lists is not commutative
under equality of the resulting `Changes` value. -/
theorem merge_not_comm :
    ¬ (Changes.merge changesA changesB = Changes.merge changesB changesA) := by
  intro h
  have hc := congrArg Changes.contacted_platforms h
  simp [Changes.merge, changesA, changesB] at hc

/-- C6 (amended): `merge` is associative, and it is commutative on the
force component; the contacted platform lists of `merge(a, b)` and
`merge(b, a)` agree only up to permutation (the lists are concatenated),
not as equal lists. -/
theorem merge_assoc_and_comm_up_to_perm (a b c : Changes) :
    Changes.merge (Changes.merge a b) c = Changes.merge a (Changes.merge b c) ∧
    (Changes.merge a b).force = (Changes.merge b a).force ∧
    (Changes.merge a b).contacted_platforms.Perm
      (Changes.merge b a).contacted_platforms := by
  refine ⟨?_, ?_, ?_⟩
  · simp [Changes.merge, add_assoc]
  · simp [Changes.merge, add_comm]
  · simpa [Changes.merge] using
      (@List.perm_append_comm ℕ a.contacted_platforms b.contacted_platforms)

/-- A list is the map of positional lookups over `range` of its length. -/
theorem map_getD_range {α : Type} (l : List α) (d : α) :
    (List.range l.length).map (fun i => l.getD i d) = l := by
  induction l with
  | nil => rfl
  | cons a t ih =>
    simp only [List.length_cons, List.range_succ_eq_map, List.map_cons,
      List.map_map, List.getD_cons_zero]
    congr 1

/-- `range'` with a shifted start is the successor image. -/
theorem range'_succ_shift (s n : ℕ) :
    List.range' (s + 1) n = (List.range' s n).map Nat.succ := by
  rw [List.range'_eq_map_range, List.range'_eq_map_range, List.map_map]
  congr 1
  funext x
  simp only [Function.comp_apply, Nat.succ_eq_add_one]
  omega

/-- The full characterization of `unique_square`: it lists the pairs of
elements at positions `i < j`, in lexicographic index order. -/
theorem unique_square_eq_index_pairs {α : Type} (l : List α) (d : α) :
    unique_square l = index_pairs_image l d := by
  induction l with
  | nil => rfl
  | cons a t ih =>
    show t.map (fun t1 => (a, t1)) ++ unique_square t = _
    unfold index_pairs_image
    rw [List.length_cons, List.range_succ_eq_map, List.flatMap_cons]
    congr 1
    · simp only [zero_add, Nat.add_sub_cancel, List.getD_cons_zero]
      rw [List.range'_eq_map_range, List.map_map]
      have h : ((fun j => ((a : α), (a :: t).getD j d)) ∘ (fun x => 1 + x))
          = (fun t1 => ((a : α), t1)) ∘ (fun i => t.getD i d) := by
        funext i
        simp only [Function.comp_apply, Nat.add_comm 1 i, List.getD_cons_succ]
      rw [h, ← List.map_map, map_getD_range]
    · rw [List.flatMap_map, ih]
      unfold index_pairs_image
      congr 1
      funext i
      have harith : t.length + 1 - (Nat.succ i + 1) = t.length - (i + 1) := by
        omega
      rw [harith, show Nat.succ i + 1 = (i + 1) + 1 from rfl,
        range'_succ_shift (i + 1) (t.length - (i + 1)), List.map_map]
      congr 1

/-- The lexicographic index pairs with `i < j` are duplicate-free. -/
theorem index_pairs_nodup (n : ℕ) :
    ((List.range n).flatMap (fun i =>
      (List.range' (i + 1) (n - (i + 1))).map (fun j => (i, j)))).Nodup := by
  rw [List.nodup_flatMap]
  constructor
  · intro i _
    refine List.Nodup.map ?_ (List.nodup_range' _ _)
    intro x y hxy
    simpa using congrArg Prod.snd hxy
  · refine (List.pairwise_lt_range n).imp ?_
    intro i1 i2 hlt p hp1 hp2
    rcases List.mem_map.mp hp1 with ⟨j1, -, rfl⟩
    rcases List.mem_map.mp hp2 with ⟨j2, -, h⟩
    injection h with h1 h2
    omega

/-- C5: `unique_square(A)` yields exactly the pairs `(A[i], A[j])` with
`i < j`, each such index pair exactly once and in lexicographic order, and
no pair with `i = j`; the second conjunct records that the enumerated index
pairs are themselves duplicate-free. -/
theorem unique_square_spec {α : Type} (l : List α) (d : α) :
    unique_square l = index_pairs_image l d ∧
    ((List.range l.length).flatMap (fun i =>
      (List.range' (i + 1) (l.length - (i + 1))).map (fun j => (i, j)))).Nodup :=
  ⟨unique_square_eq_index_pairs l d, index_pairs_nodup l.length⟩

/-- C8: `handle_phys_update` adds the acceleration to the velocity, adds
the updated velocity to the position, and zeroes the acceleration
accumulator, leaving every other field unchanged. -/
theorem handle_phys_update_eq (p : Player) :
    handle_phys_update p =
      { p with
        velocity := p.velocity + p.acceleration,
        position := p.position + (p.velocity + p.acceleration),
        acceleration := ((0 : ℝ), (0 : ℝ)) } :=
  rfl

/-- Membership in the `product` of two lists is componentwise membership. -/
theorem mem_product {α β : Type} {l1 : List α} {l2 : List β} {p : α × β} :
    p ∈ product l1 l2 ↔ p.1 ∈ l1 ∧ p.2 ∈ l2 := by
  unfold product
  rw [List.mem_flatMap]
  constructor
  · rintro ⟨a, ha, hp⟩
    rcases List.mem_map.mp hp with ⟨b, hb, rfl⟩
    exact ⟨ha, hb⟩
  · rintro ⟨h1, h2⟩
    exact ⟨p.1, h1, List.mem_map.mpr ⟨p.2, h2, rfl⟩⟩

/-- The boolean collision test agrees with the collision predicate. -/
theorem check_collision_b_eq_true {a b : BoundingBox} :
    check_collision_b a b = true ↔ check_collision a b := by
  unfold check_collision_b
  exact ⟨fun h => @of_decide_eq_true _ (Classical.propDecidable _) h,
    fun h => @decide_eq_true _ (Classical.propDecidable _) h⟩

/-- Membership characterization of `check_for_hb_collisions` without the
swap: the translated copy of the first box must overlap the second. -/
theorem mem_check_for_hb_collisions_false {offset : V2}
    {hbs : List BoundingBox × List BoundingBox} {p : BoundingBox × BoundingBox} :
    p ∈ check_for_hb_collisions false offset hbs ↔
      p.1 ∈ hbs.1 ∧ p.2 ∈ hbs.2 ∧ check_collision (translate p.1 offset) p.2 := by
  unfold check_for_hb_collisions
  simp only [Bool.false_eq_true, if_false, List.mem_map, List.mem_filter]
  constructor
  · rintro ⟨x, ⟨hx, hcb⟩, rfl⟩
    rcases mem_product.mp hx with ⟨hx1, hb2⟩
    rcases List.mem_map.mp hx1 with ⟨bb, hbb, hx1e⟩
    rw [← hx1e] at hcb
    dsimp only
    rw [← hx1e]
    dsimp only at hcb ⊢
    exact ⟨hbb, hb2, check_collision_b_eq_true.mp hcb⟩
  · rintro ⟨h1, h2, h3⟩
    refine ⟨((p.1, translate p.1 offset), p.2), ⟨?_, ?_⟩, rfl⟩
    · exact mem_product.mpr ⟨List.mem_map.mpr ⟨p.1, h1, rfl⟩, h2⟩
    · exact check_collision_b_eq_true.mpr h3

/-- Membership characterization of `check_for_hb_collisions` with the swap:
the translated copy of the second box must overlap the first, and the
emitted pair is flipped back to (first collection, second collection). -/
theorem mem_check_for_hb_collisions_true {offset : V2}
    {hbs : List BoundingBox × List BoundingBox} {p : BoundingBox × BoundingBox} :
    p ∈ check_for_hb_collisions true offset hbs ↔
      p.1 ∈ hbs.1 ∧ p.2 ∈ hbs.2 ∧ check_collision (translate p.2 offset) p.1 := by
  unfold check_for_hb_collisions
  simp only [if_true, List.mem_map, List.mem_filter]
  constructor
  · rintro ⟨x, ⟨hx, hcb⟩, rfl⟩
    rcases mem_product.mp hx with ⟨hx1, hb2⟩
    rcases List.mem_map.mp hx1 with ⟨bb, hbb, hx1e⟩
    rw [← hx1e] at hcb
    dsimp only
    rw [← hx1e]
    dsimp only at hcb ⊢
    exact ⟨hb2, hbb, check_collision_b_eq_true.mp hcb⟩
  · rintro ⟨h1, h2, h3⟩
    refine ⟨((p.2, translate p.2 offset), p.1), ⟨?_, ?_⟩, rfl⟩
    · exact mem_product.mpr ⟨List.mem_map.mpr ⟨p.2, h2, rfl⟩, h1⟩
    · exact check_collision_b_eq_true.mpr h3

/-- Normalization only looks at position differences, so translating both
boxes by the same offset leaves it unchanged. -/
theorem normalized_wrt_translate (x y : BoundingBox) (t : V2) :
    normalized_wrt (translate x t) (translate y t) = normalized_wrt x y := by
  unfold normalized_wrt translate
  simp only [add_sub_add_right_eq_sub]

/-- `check_collision` is invariant under a common translation. -/
theorem check_collision_translate (a b : BoundingBox) (t : V2) :
    check_collision (translate a t) (translate b t) ↔ check_collision a b := by
  unfold check_collision check_half_collision is_almost_axis_aligned
  rw [normalized_wrt_translate a b t, normalized_wrt_translate b a t]
  exact Iff.rfl

/-- Translating by an offset and then by its reverse returns the box. -/
theorem translate_translate_cancel (x : BoundingBox) (u v : V2) :
    translate (translate x (u - v)) (v - u) = x := by
  unfold translate
  cases x with
  | mk pos size ori =>
    simp only [BoundingBox.mk.injEq, and_true]
    abel

/-- Applying the offset `oB - oA` to the second box and testing against the
first is equivalent to applying `oA - oB` to the first box and testing
against the second, for boxes with nonnegative sizes whose orientations
are exactly equal or at least `ORI_EPSILON` apart. -/
theorem check_translate_flip (b0 b1 : BoundingBox) (oA oB : V2)
    (hs01 : 0 ≤ b0.size.1) (hs02 : 0 ≤ b0.size.2)
    (hs11 : 0 ≤ b1.size.1) (hs12 : 0 ≤ b1.size.2)
    (hori : b0.ori = b1.ori ∨ ORI_EPSILON ≤ |b1.ori - b0.ori|) :
    (check_collision (translate b1 (oB - oA)) b0 ↔
      check_collision (translate b0 (oA - oB)) b1) := by
  have hcomm : check_collision (translate b1 (oB - oA)) b0 ↔
      check_collision b0 (translate b1 (oB - oA)) := by
    refine check_collision_comm _ _ hs11 hs12 hs01 hs02 ?_
    rcases hori with heq | hfar
    · exact Or.inl heq.symm
    · exact Or.inr (by rw [abs_sub_comm] at hfar; exact hfar)
  rw [hcomm, ← check_collision_translate b0 (translate b1 (oB - oA)) (oA - oB),
    translate_translate_cancel b1 oB oA]

/-- C4 counterexample: with the degenerate negative-width box, running the
hitbox-pair check with the translation applied to the second collection
finds no overlap, while applying it to the first collection reports the
pair, so the two runs do not return the same overlapping pairs. -/
theorem check_for_hb_collisions_offset_side_matters :
    (negBox, wideBox) ∈
      check_for_hb_collisions false (((0, 0) : V2) - (0, 0)) ([negBox], [wideBox]) ∧
    (negBox, wideBox) ∉
      check_for_hb_collisions true (((0, 0) : V2) - (0, 0)) ([negBox], [wideBox]) := by
  have ht : ∀ x : BoundingBox, translate x (((0, 0) : V2) - (0, 0)) = x := by
    intro x
    unfold translate
    cases x with
    | mk pos size ori =>
      simp only [BoundingBox.mk.injEq, and_true]
      abel
  constructor
  · rw [mem_check_for_hb_collisions_false]
    exact ⟨List.mem_singleton_self _, List.mem_singleton_self _,
      by rw [ht]; exact check_collision_negBox_wideBox⟩
  · rw [mem_check_for_hb_collisions_true]
    rintro ⟨-, -, hc⟩
    rw [ht] at hc
    exact not_check_collision_wideBox_negBox hc

/-- C4 (amended): for hitbox collections of boxes with componentwise
nonnegative sizes in which every cross pair of orientations is exactly
equal or at least `ORI_EPSILON` apart, translating the second collection
by `oB - oA` (`offset_second = true`) and translating the first collection
by `oA - oB` (`offset_second = false`) produce the same overlapping pairs,
each ordered (box from first collection, box from second collection) —
as sets of pairs (the two runs enumerate them in transposed order); the
unrestricted claim is refuted by the counterexample. -/
theorem check_for_hb_collisions_offset_side_irrelevant
    (hb0 hb1 : List BoundingBox) (oA oB : V2)
    (h0 : ∀ b ∈ hb0, 0 ≤ b.size.1 ∧ 0 ≤ b.size.2)
    (h1 : ∀ b ∈ hb1, 0 ≤ b.size.1 ∧ 0 ≤ b.size.2)
    (hori : ∀ b0 ∈ hb0, ∀ b1 ∈ hb1,
      b0.ori = b1.ori ∨ ORI_EPSILON ≤ |b1.ori - b0.ori|)
    (p : BoundingBox × BoundingBox) :
    (p ∈ check_for_hb_collisions true (oB - oA) (hb0, hb1) ↔
      p ∈ check_for_hb_collisions false (oA - oB) (hb0, hb1)) := by
  rw [mem_check_for_hb_collisions_true, mem_check_for_hb_collisions_false]
  constructor
  · rintro ⟨m1, m2, hc⟩
    exact ⟨m1, m2,
      (check_translate_flip p.1 p.2 oA oB (h0 p.1 m1).1 (h0 p.1 m1).2
        (h1 p.2 m2).1 (h1 p.2 m2).2 (hori p.1 m1 p.2 m2)).mp hc⟩
  · rintro ⟨m1, m2, hc⟩
    exact ⟨m1, m2,
      (check_translate_flip p.1 p.2 oA oB (h0 p.1 m1).1 (h0 p.1 m1).2
        (h1 p.2 m2).1 (h1 p.2 m2).2 (hori p.1 m1 p.2 m2)).mpr hc⟩

/-- Witness for the amended C4 at singleton collections of axis-aligned
boxes with zero offsets. -/
theorem check_for_hb_collisions_offset_side_irrelevant_witness :
    ((unitBox, wideBox) ∈
        check_for_hb_collisions true (((0, 0) : V2) - (0, 0)) ([unitBox], [wideBox]) ↔
      (unitBox, wideBox) ∈
        check_for_hb_collisions false (((0, 0) : V2) - (0, 0)) ([unitBox], [wideBox])) :=
  check_for_hb_collisions_offset_side_irrelevant [unitBox] [wideBox] (0, 0) (0, 0)
    (by intro b hb; rw [List.mem_singleton] at hb; subst hb; constructor <;> norm_num [unitBox])
    (by intro b hb; rw [List.mem_singleton] at hb; subst hb; constructor <;> norm_num [wideBox])
    (by
      intro b0 hb0 b1 hb1
      rw [List.mem_singleton] at hb0 hb1
      subst hb0; subst hb1
      exact Or.inl rfl)
    (unitBox, wideBox)

/-- Both components of a `unique_square` member come from the input list. -/
theorem mem_of_mem_unique_square {α : Type} {l : List α} {q : α × α}
    (h : q ∈ unique_square l) : q.1 ∈ l ∧ q.2 ∈ l := by
  induction l with
  | nil => cases h
  | cons a t ih =>
    simp only [unique_square] at h
    rcases List.mem_append.mp h with h1 | h2
    · rcases List.mem_map.mp h1 with ⟨b, hb, rfl⟩
      exact ⟨List.mem_cons_self a t, List.mem_cons_of_mem a hb⟩
    · rcases ih h2 with ⟨x, y⟩
      exact ⟨List.mem_cons_of_mem a x, List.mem_cons_of_mem a y⟩

/-- A `unique_square` member is a pair of positional lookups at `i < j`. -/
theorem mem_unique_square_getD {α : Type} {l : List α} {q : α × α} (d : α)
    (h : q ∈ unique_square l) :
    ∃ i j, i < j ∧ j < l.length ∧ q.1 = l.getD i d ∧ q.2 = l.getD j d := by
  rw [unique_square_eq_index_pairs l d] at h
  unfold index_pairs_image at h
  rcases List.mem_flatMap.mp h with ⟨i, hi, hq⟩
  rcases List.mem_map.mp hq with ⟨j, hj, rfl⟩
  rw [List.mem_range] at hi
  rw [List.mem_range'_1] at hj
  exact ⟨i, j, by omega, by omega, rfl, rfl⟩

/-- `flatMap` respects pointwise equality on members. -/
theorem flatMap_congr_mem {α β : Type} {l : List α} {f g : α → List β}
    (h : ∀ a ∈ l, f a = g a) : l.flatMap f = l.flatMap g := by
  induction l with
  | nil => rfl
  | cons a t ih =>
    simp only [List.flatMap_cons]
    rw [h a (List.mem_cons_self a t), ih (fun x hx => h x (List.mem_cons_of_mem a hx))]

/-- Positional lookup in the enumerated hitbox pairing list. -/
theorem ewh_getD (es : List Entity) (d : Entity) (i : ℕ) (hi : i < es.length) :
    (es.enum.map (fun ie => (ie, ie.2.hitboxes))).getD i ((0, d), []) =
      ((i, es.getD i d), (es.getD i d).hitboxes) := by
  have hi2 : i < (es.enum.map (fun ie => (ie, ie.2.hitboxes))).length := by
    rw [List.length_map, List.enum_length]
    exact hi
  rw [List.getD_eq_getElem _ _ hi2, List.getElem_map, List.getElem_enum,
    List.getD_eq_getElem _ _ hi]

/-- Any member of `check_for_collisions` arises from a `unique_square`
candidate pair by the shared pair step. -/
theorem mem_check_for_collisions {es : List Entity} {c : Collision}
    (hc : c ∈ check_for_collisions es) :
    ∃ q ∈ unique_square (es.enum.map (fun ie => (ie, ie.2.hitboxes))),
      c = Collision.fromParts (pair_step (transpose q)) := by
  simp only [check_for_collisions] at hc
  rcases List.mem_map.mp hc with ⟨y, hy, rfl⟩
  rcases List.mem_map.mp (List.mem_filter.mp hy).1 with ⟨z, hz, rfl⟩
  rcases List.mem_map.mp hz with ⟨q, hq, rfl⟩
  exact ⟨q, hq, rfl⟩

/-- Any member of `check_for_collision_pairs` arises from a `product`
candidate pair by the shared pair step. -/
theorem mem_check_for_collision_pairs {s1 s2 : List Entity} {c : Collision}
    (hc : c ∈ check_for_collision_pairs s1 s2) :
    ∃ q ∈ product (s1.enum.map (fun ie => (ie, ie.2.hitboxes)))
        (s2.enum.map (fun ie => (ie, ie.2.hitboxes))),
      c = Collision.fromParts (pair_step (transpose q)) := by
  simp only [check_for_collision_pairs] at hc
  rcases List.mem_map.mp hc with ⟨y, hy, rfl⟩
  rcases List.mem_map.mp (List.mem_filter.mp hy).1 with ⟨z, hz, rfl⟩
  rcases List.mem_map.mp hz with ⟨q, hq, rfl⟩
  exact ⟨q, hq, rfl⟩

/-- Members of either run of `check_for_hb_collisions` project into the
respective input collections. -/
theorem mem_check_for_hb_collisions_proj {sos : Bool} {offset : V2}
    {hbs : List BoundingBox × List BoundingBox} {p : BoundingBox × BoundingBox}
    (hp : p ∈ check_for_hb_collisions sos offset hbs) :
    p.1 ∈ hbs.1 ∧ p.2 ∈ hbs.2 := by
  cases sos
  · rcases mem_check_for_hb_collisions_false.mp hp with ⟨a, b, -⟩
    exact ⟨a, b⟩
  · rcases mem_check_for_hb_collisions_true.mp hp with ⟨a, b, -⟩
    exact ⟨a, b⟩

/-- In the enumerated pairing list, the hitbox component is exactly the
hitbox list of the paired entity. -/
theorem mem_entity_with_hitboxes_snd {es : List Entity}
    {x : (ℕ × Entity) × List BoundingBox}
    (h : x ∈ es.enum.map (fun ie => (ie, ie.2.hitboxes))) :
    x.2 = x.1.2.hitboxes := by
  rcases List.mem_map.mp h with ⟨ie, -, rfl⟩
  rfl

/-- The overlap list attached by the pair step, with the side selection and
offset spelled out. -/
theorem pair_step_overlapping
    (x : ((ℕ × Entity) × (ℕ × Entity)) × (List BoundingBox × List BoundingBox)) :
    (Collision.fromParts (pair_step x)).overlapping_hitboxes =
      check_for_hb_collisions (decide (x.2.2.length < x.2.1.length))
        (if decide (x.2.2.length < x.2.1.length) then
          x.1.2.2.offset - x.1.1.2.offset
        else x.1.1.2.offset - x.1.2.2.offset) x.2 :=
  rfl

/-- C9: every collision record returned by `check_for_collisions` carries
an ordered pair of indices `ids.1 < ids.2` that are valid positions of the
input slice, its `objs` are the entities at those positions, and (second
conjunct) no pair of indices — hence no unordered entity pair — occurs in
more than one returned record. -/
theorem check_for_collisions_sound (es : List Entity) (d : Entity) :
    (∀ c ∈ check_for_collisions es,
      c.ids.1 < c.ids.2 ∧ c.ids.2 < es.length ∧
      c.objs.1 = es.getD c.ids.1 d ∧ c.objs.2 = es.getD c.ids.2 d) ∧
    ((check_for_collisions es).map (fun c => c.ids)).Nodup := by
  constructor
  · intro c hc
    rcases mem_check_for_collisions hc with ⟨q, hq, rfl⟩
    rcases mem_unique_square_getD ((0, d), ([] : List BoundingBox)) hq with
      ⟨i, j, hij, hjn, hq1, hq2⟩
    have hn : (es.enum.map (fun ie => (ie, ie.2.hitboxes))).length = es.length := by
      rw [List.length_map, List.enum_length]
    rw [hn] at hjn
    have hin : i < es.length := lt_trans hij hjn
    rw [ewh_getD es d i hin] at hq1
    rw [ewh_getD es d j hjn] at hq2
    have hids : (Collision.fromParts (pair_step (transpose q))).ids =
        (q.1.1.1, q.2.1.1) := rfl
    have hobjs : (Collision.fromParts (pair_step (transpose q))).objs =
        (q.1.1.2, q.2.1.2) := rfl
    rw [hids, hobjs, hq1, hq2]
    exact ⟨hij, hjn, rfl, rfl⟩
  · have hall : ((unique_square (es.enum.map (fun ie => (ie, ie.2.hitboxes)))).map
        (fun q => (q.1.1.1, q.2.1.1))).Nodup := by
      rw [unique_square_eq_index_pairs _ ((0, d), ([] : List BoundingBox))]
      unfold index_pairs_image
      rw [List.map_flatMap]
      have heq : ∀ i ∈ List.range
          (es.enum.map (fun ie => (ie, ie.2.hitboxes))).length,
          ((List.range' (i + 1)
              ((es.enum.map (fun ie => (ie, ie.2.hitboxes))).length - (i + 1))).map
            (fun j => ((es.enum.map (fun ie => (ie, ie.2.hitboxes))).getD i ((0, d), []),
              (es.enum.map (fun ie => (ie, ie.2.hitboxes))).getD j ((0, d), [])))).map
            (fun q => (q.1.1.1, q.2.1.1)) =
          (List.range' (i + 1)
              ((es.enum.map (fun ie => (ie, ie.2.hitboxes))).length - (i + 1))).map
            (fun j => (i, j)) := by
        intro i hi
        rw [List.mem_range] at hi
        have hn : (es.enum.map (fun ie => (ie, ie.2.hitboxes))).length = es.length := by
          rw [List.length_map, List.enum_length]
        rw [List.map_map]
        refine List.map_congr_left ?_
        intro j hj
        rw [List.mem_range'_1] at hj
        have hin : i < es.length := by rw [hn] at hi; exact hi
        have hjn : j < es.length := by rw [hn] at hj; omega
        rw [Function.comp_apply, ewh_getD es d i hin, ewh_getD es d j hjn]
      rw [flatMap_congr_mem heq]
      exact index_pairs_nodup _
    have hsub : ((check_for_collisions es).map (fun c => c.ids)).Sublist
        ((unique_square (es.enum.map (fun ie => (ie, ie.2.hitboxes)))).map
          (fun q => (q.1.1.1, q.2.1.1))) := by
      simp only [check_for_collisions]
      rw [List.map_map, List.map_map]
      have h1 := (@List.filter_sublist _ (fun y => !y.2.isEmpty)
        ((((unique_square (es.enum.map (fun ie => (ie, ie.2.hitboxes)))).map
          transpose).map pair_step))).map
        ((fun c : Collision => c.ids) ∘ Collision.fromParts)
      rw [List.map_map, List.map_map] at h1
      have hfun : (((fun c : Collision => c.ids) ∘ Collision.fromParts) ∘
          pair_step ∘ transpose) =
          (fun q : ((ℕ × Entity) × List BoundingBox) ×
              ((ℕ × Entity) × List BoundingBox) => (q.1.1.1, q.2.1.1)) := rfl
      rw [hfun] at h1
      exact h1
    exact List.Nodup.sublist hsub hall

/-- C10: every hitbox pair reported in `overlapping_hitboxes` — by either
entry point — consists of boxes drawn from the respective entities own
`get_hitboxes` lists (the untranslated originals), never the temporary
offset copies built during the test. -/
theorem overlapping_hitboxes_from_originals (es s1 s2 : List Entity) :
    (∀ c ∈ check_for_collisions es, ∀ pr ∈ c.overlapping_hitboxes,
      pr.1 ∈ c.objs.1.hitboxes ∧ pr.2 ∈ c.objs.2.hitboxes) ∧
    (∀ c ∈ check_for_collision_pairs s1 s2, ∀ pr ∈ c.overlapping_hitboxes,
      pr.1 ∈ c.objs.1.hitboxes ∧ pr.2 ∈ c.objs.2.hitboxes) := by
  constructor
  · intro c hc pr hpr
    rcases mem_check_for_collisions hc with ⟨q, hq, rfl⟩
    have hmem := mem_of_mem_unique_square hq
    have h1 := mem_entity_with_hitboxes_snd hmem.1
    have h2 := mem_entity_with_hitboxes_snd hmem.2
    rw [pair_step_overlapping (transpose q)] at hpr
    have hproj := mem_check_for_hb_collisions_proj hpr
    have hobjs : (Collision.fromParts (pair_step (transpose q))).objs =
        (q.1.1.2, q.2.1.2) := rfl
    rw [hobjs]
    exact ⟨by rw [← h1]; exact hproj.1, by rw [← h2]; exact hproj.2⟩
  · intro c hc pr hpr
    rcases mem_check_for_collision_pairs hc with ⟨q, hq, rfl⟩
    have hmem := mem_product.mp hq
    have h1 := mem_entity_with_hitboxes_snd hmem.1
    have h2 := mem_entity_with_hitboxes_snd hmem.2
    rw [pair_step_overlapping (transpose q)] at hpr
    have hproj := mem_check_for_hb_collisions_proj hpr
    have hobjs : (Collision.fromParts (pair_step (transpose q))).objs =
        (q.1.1.2, q.2.1.2) := rfl
    rw [hobjs]
    exact ⟨by rw [← h1]; exact hproj.1, by rw [← h2]; exact hproj.2⟩

/-- Translating by the zero difference is the identity on boxes. -/
theorem translate_zero_offset (x : BoundingBox) :
    translate x (((0, 0) : V2) - (0, 0)) = x := by
  unfold translate
  cases x with
  | mk pos size ori =>
    simp only [BoundingBox.mk.injEq, and_true]
    abel

/-- The unit box collides with itself. -/
theorem check_collision_unitBox_self : check_collision unitBox unitBox := by
  refine ⟨?_, Or.inl (is_almost_axis_aligned_of_ori_eq unitBox unitBox rfl)⟩
  rw [check_half_collision_ori_eq unitBox unitBox rfl]
  unfold unitBox
  norm_num

/-- Evaluating the hitbox-pair check on two singleton unit boxes with a
zero offset difference. -/
theorem check_for_hb_collisions_unit_eval :
    check_for_hb_collisions false (((0, 0) : V2) - (0, 0)) ([unitBox], [unitBox])
      = [(unitBox, unitBox)] := by
  have hb : check_collision_b unitBox unitBox = true :=
    check_collision_b_eq_true.mpr check_collision_unitBox_self
  simp only [check_for_hb_collisions, Bool.false_eq_true, if_false,
    List.map_cons, List.map_nil, translate_zero_offset, product,
    List.flatMap_cons, List.flatMap_nil, List.append_nil, List.filter_cons,
    List.filter_nil, hb, if_true]

/-- Evaluating `check_for_collisions` on two unit entities: exactly one
collision record with ids `(0, 1)` and one overlapping pair. -/
theorem check_for_collisions_unit_eval :
    check_for_collisions [unitEntity, unitEntity] = [colU2] := by
  have h1 : check_for_collisions [unitEntity, unitEntity]
      = ([((((0 : ℕ), unitEntity), ((1 : ℕ), unitEntity)),
            check_for_hb_collisions false (((0, 0) : V2) - (0, 0))
              ([unitBox], [unitBox]))].filter
          (fun y => !y.2.isEmpty)).map Collision.fromParts := rfl
  rw [h1, check_for_hb_collisions_unit_eval]
  rfl

/-- Evaluating `check_for_collision_pairs` on singleton slices of unit
entities: one record with ids `(0, 0)` and one overlapping pair. -/
theorem check_for_collision_pairs_unit_eval :
    check_for_collision_pairs [unitEntity] [unitEntity] = [colU1] := by
  have h1 : check_for_collision_pairs [unitEntity] [unitEntity]
      = ([((((0 : ℕ), unitEntity), ((0 : ℕ), unitEntity)),
            check_for_hb_collisions false (((0, 0) : V2) - (0, 0))
              ([unitBox], [unitBox]))].filter
          (fun y => !y.2.isEmpty)).map Collision.fromParts := rfl
  rw [h1, check_for_hb_collisions_unit_eval]
  rfl

/-- Witness for C9 on the two-unit-entity slice. -/
theorem check_for_collisions_sound_witness :
    colU2.ids.1 < colU2.ids.2 ∧
    colU2.ids.2 < ([unitEntity, unitEntity] : List Entity).length ∧
    colU2.objs.1 = ([unitEntity, unitEntity] : List Entity).getD colU2.ids.1 unitEntity ∧
    colU2.objs.2 = ([unitEntity, unitEntity] : List Entity).getD colU2.ids.2 unitEntity :=
  (check_for_collisions_sound [unitEntity, unitEntity] unitEntity).1 colU2
    (by rw [check_for_collisions_unit_eval]; exact List.mem_singleton_self _)

/-- Witness for C10 on both entry points, at the concrete unit scenario. -/
theorem overlapping_hitboxes_from_originals_witness :
    ((unitBox, unitBox).1 ∈ colU2.objs.1.hitboxes ∧
      (unitBox, unitBox).2 ∈ colU2.objs.2.hitboxes) ∧
    ((unitBox, unitBox).1 ∈ colU1.objs.1.hitboxes ∧
      (unitBox, unitBox).2 ∈ colU1.objs.2.hitboxes) :=
  ⟨(overlapping_hitboxes_from_originals [unitEntity, unitEntity]
        [unitEntity] [unitEntity]).1 colU2
      (by rw [check_for_collisions_unit_eval]; exact List.mem_singleton_self _)
      (unitBox, unitBox) (List.mem_singleton_self _),
    (overlapping_hitboxes_from_originals [unitEntity, unitEntity]
        [unitEntity] [unitEntity]).2 colU1
      (by rw [check_for_collision_pairs_unit_eval]; exact List.mem_singleton_self _)
      (unitBox, unitBox) (List.mem_singleton_self _)⟩

end Walpurgis
